import Mathlib

/-!
Shallow embedding of the diff-hunk interpretation core of `korbit_tools`
(`models.py`, `string_search.py`, `diff_representation.py`).

Python strings are modelled as Lean `String` values manipulated through
their character lists.  Python functions that can raise are modelled with
`Option` (`none` = an exception escapes).  The external similarity
function `fuzz.ratio` of the `fuzzywuzzy` package is modelled after its
documented Levenshtein-ratio semantics.  The regular expressions of
`diff_representation.py` are embedded as dedicated matchers: every digit
group of those patterns is followed by a non-digit literal, so greedy
matching is plain maximal munch and `re.findall` is a left-to-right,
non-overlapping scan.
-/

namespace Korbit

/-- The ASCII whitespace stripped by Python `str.strip()`. -/
def isPySpace (c : Char) : Bool :=
  c = ' ' || c = '\t' || c = '\n' || c = '\r' || c = '\x0b' || c = '\x0c'

/-- Python `str.strip()` on a character list. -/
def pyStripL (l : List Char) : List Char :=
  ((l.dropWhile isPySpace).reverse.dropWhile isPySpace).reverse

/-- Python `str.strip()`. -/
def pyStrip (s : String) : String := ⟨pyStripL s.data⟩

/-- Python `needle in hay` substring containment. -/
def isSubstrOf (needle hay : String) : Bool :=
  hay.data.tails.any (fun t => needle.data.isPrefixOf t)

/-- Python `hay.startswith(needle)`. -/
def pyStartsWith (hay needle : String) : Bool := needle.data.isPrefixOf hay.data

/-- Python `content.split("\n")`: keeps empty pieces, `""` gives `[""]`. -/
def splitNLAux : List Char → List Char → List (List Char)
  | [], acc => [acc.reverse]
  | '\n' :: rest, acc => acc.reverse :: splitNLAux rest []
  | c :: rest, acc => splitNLAux rest (c :: acc)

/-- Python `content.split("\n")`. -/
def pySplitNL (s : String) : List String := (splitNLAux s.data []).map (fun l => ⟨l⟩)

/-- Python `str.splitlines()` restricted to the `\n`, `\r\n` and `\r`
line terminators (the only ones this code base produces): no entry for a
trailing terminator, and the empty string yields `[]`. -/
def splitlinesAux : List Char → List Char → List (List Char)
  | [], acc => if acc.isEmpty then [] else [acc.reverse]
  | '\r' :: '\n' :: rest, acc => acc.reverse :: splitlinesAux rest []
  | '\r' :: rest, acc => acc.reverse :: splitlinesAux rest []
  | '\n' :: rest, acc => acc.reverse :: splitlinesAux rest []
  | c :: rest, acc => splitlinesAux rest (c :: acc)

/-- Python `str.splitlines()`. -/
def pySplitlines (s : String) : List String := (splitlinesAux s.data []).map (fun l => ⟨l⟩)

/-- One dynamic-programming row of the longest-common-subsequence table:
`cur` is the entry just computed on the new row, `p0 :: ps` the remaining
entries of the previous row. -/
def lcsRowAux (a : Char) : List Char → List Nat → Nat → List Nat
  | [], _, _ => []
  | _ :: _, [], _ => []
  | b :: bs, p0 :: ps, cur =>
    let v := if a = b then p0 + 1 else max cur (ps.headD 0)
    v :: lcsRowAux a bs ps v

/-- Length of a longest common subsequence of two character lists. -/
def lcsLen (s t : List Char) : Nat :=
  (s.foldl (fun prev a => 0 :: lcsRowAux a t prev 0) (List.replicate (t.length + 1) 0)).getLastD 0

/-- Round `num / den` (for `den > 0`) to the nearest integer with ties to
even, as Python `round` does. -/
def roundHalfEven (num den : Nat) : Nat :=
  let q := num / den
  let r := num % den
  if 2 * r < den then q
  else if den < 2 * r then q + 1
  else if q % 2 = 0 then q else q + 1

/-- Modelled from the spec: the external `fuzzywuzzy` `fuzz.ratio`
similarity, absent from the repository sources — a "normalized similarity
score ... on a 0-100 scale", "Levenshtein-ratio-style":
`round(100 * 2 * lcs(s1, s2) / (len(s1) + len(s2)))`, and `100` when both
strings are empty. -/
def fuzz_score (s1 s2 : String) : Nat :=
  let n := s1.data.length + s2.data.length
  if n = 0 then 100 else roundHalfEven (200 * lcsLen s1.data s2.data) n

/-- `models.LineNumberRange` (a mutable dataclass in Python; mutation is
modelled by threading updated values). -/
structure LineNumberRange where
  start_number : Nat
  end_number : Nat
  deriving DecidableEq

instance : Inhabited LineNumberRange := ⟨⟨0, 0⟩⟩

/-- `re.sub(r"(\[|\{)?\.\.\.(\]|\})?$", "", line)`: remove an ellipsis
marker at the end of the line, optionally wrapped in one opening and/or
one closing bracket.  The regex is anchored at the end of the string, so
the match is a suffix, and the leftmost match is the longest such suffix. -/
def endsWithL (l suffix : List Char) : Bool := suffix.reverse.isPrefixOf l.reverse

/-- Drop the last `n` characters. -/
def dropRightL (l : List Char) (n : Nat) : List Char := l.take (l.length - n)

/-- The opening curly-brace character (code point 123). -/
def openBrace : Char := Char.ofNat 123

/-- The closing curly-brace character (code point 125). -/
def closeBrace : Char := Char.ofNat 125

/-- The three-dot ellipsis body of the substitution pattern. -/
def dots : List Char := ['.', '.', '.']

/-- Suffix analysis of the ellipsis regex, on character lists. -/
def stripEllipsisL (l : List Char) : List Char :=
  if endsWithL l ('[' :: dots ++ [']']) || endsWithL l ('[' :: dots ++ [closeBrace]) ||
      endsWithL l (openBrace :: dots ++ [']']) || endsWithL l (openBrace :: dots ++ [closeBrace]) then
    dropRightL l 5
  else if endsWithL l ('[' :: dots) || endsWithL l (openBrace :: dots) ||
      endsWithL l (dots ++ [']']) || endsWithL l (dots ++ [closeBrace]) then
    dropRightL l 4
  else if endsWithL l dots then dropRightL l 3
  else l

/-- The ellipsis-stripping substitution applied to first and last snippet
lines in `string_search.split_and_process_snippet`. -/
def stripEllipsis (s : String) : String := ⟨stripEllipsisL s.data⟩

/-- `string_search.split_and_process_snippet`.  `none` models the
`IndexError` Python raises when the stripped snippet has no lines
(`code_snippet_lines[0]` on an empty list). -/
def split_and_process_snippet (code_snippet : String) : Option (List String) :=
  let ls := pySplitlines (pyStrip code_snippet)
  if ls.isEmpty then none
  else
    let ls1 := ls.set 0 (stripEllipsis (ls.getD 0 ""))
    let ls2 := ls1.set (ls1.length - 1) (stripEllipsis (ls1.getD (ls1.length - 1) ""))
    some (ls2.map pyStrip)

/-- The `enumerate` loop of `string_search.get_line_idx_in_content`; by
Python operator precedence the condition is
`(fuzzy_match and fuzz.ratio(end_line, line.strip()) > 90) or (end_line in line)`. -/
def getLineIdxAux (end_line : String) (fuzzy_match : Bool) : List String → Nat → Int
  | [], _ => -1
  | content_line :: rest, idx =>
    if (fuzzy_match && decide (90 < fuzz_score end_line (pyStrip content_line))) || isSubstrOf end_line content_line then
      (idx : Int)
    else getLineIdxAux end_line fuzzy_match rest (idx + 1)

/-- `string_search.get_line_idx_in_content`: index of the first matching
line, `-1` when none matches. -/
def get_line_idx_in_content (end_line : String) (content_lines : List String) (fuzzy_match : Bool) : Int :=
  getLineIdxAux end_line fuzzy_match content_lines 0

/-- `string_search.get_line_number_range`. -/
def get_line_number_range (start_line_idx : Nat) (content_lines : List String) (end_line : String) (fuzzy_match : Bool) : Option LineNumberRange :=
  let end_line_idx : Int := get_line_idx_in_content end_line (content_lines.drop start_line_idx) fuzzy_match + start_line_idx
  if (start_line_idx : Int) > end_line_idx then none
  else some ⟨start_line_idx + 1, end_line_idx.toNat + 1⟩

/-- The `scan_content` inner loop of
`string_search.get_line_number_ranges_in_content`.  `fuel` bounds the
iterations of the Python `while` loop: each iteration strictly increases
`idx` (on a match, the loop resumes at `range.end_number`, which is at
least `idx + 1`), so `content_lines.length` iterations always suffice. -/
def scanContentAux (start_line_contents end_line_contents : String) (content_lines : List String) (fuzzy_match : Bool) : Nat → Nat → List LineNumberRange
  | 0, _ => []
  | fuel + 1, idx =>
    if idx < content_lines.length then
      match (if fuzzy_match then
               if 90 < fuzz_score start_line_contents (pyStrip (content_lines.getD idx "")) then
                 get_line_number_range idx content_lines end_line_contents true
               else none
             else
               if isSubstrOf start_line_contents (content_lines.getD idx "") then
                 get_line_number_range idx content_lines end_line_contents false
               else none : Option LineNumberRange) with
      | some r => r :: scanContentAux start_line_contents end_line_contents content_lines fuzzy_match fuel r.end_number
      | none => scanContentAux start_line_contents end_line_contents content_lines fuzzy_match fuel (idx + 1)
    else []

/-- One pass (`scan_content(fuzzy_match)`) of
`string_search.get_line_number_ranges_in_content`. -/
def scanContent (start_line_contents end_line_contents : String) (content_lines : List String) (fuzzy_match : Bool) : List LineNumberRange :=
  scanContentAux start_line_contents end_line_contents content_lines fuzzy_match content_lines.length 0

/-- `string_search.get_line_number_ranges_in_content`: exact pass first,
fuzzy pass only when the exact pass appended nothing. -/
def get_line_number_ranges_in_content (start_line_contents end_line_contents content : String) : List LineNumberRange :=
  let content_lines := pySplitNL content
  let exact := scanContent start_line_contents end_line_contents content_lines false
  if exact.isEmpty then scanContent start_line_contents end_line_contents content_lines true
  else exact

/-- `string_search.find_line_number_ranges_of_code_snippet_in_content`;
`none` models the exception propagated out of
`split_and_process_snippet`. -/
def find_line_number_ranges_of_code_snippet_in_content (code_snippet content : String) : Option (List LineNumberRange) :=
  match split_and_process_snippet code_snippet with
  | none => none
  | some ls => some (get_line_number_ranges_in_content (ls.getD 0 "") (ls.getLastD "") content)

/-- Python `int` on a captured digit group. -/
def digitsToNat (ds : List Char) : Nat := ds.foldl (fun a c => a * 10 + (c.toNat - 48)) 0

/-- ASCII decimal digit (`\d` on the headers this code parses). -/
def isDigitChar (c : Char) : Bool := c.isDigit

/-- Consume the literal `lit` from the front of `s`. -/
def expectL (lit s : List Char) : Option (List Char) :=
  if lit.isPrefixOf s then some (s.drop lit.length) else none

/-- Consume one or more digits (`\d+`), returning their value. -/
def expectDigits (s : List Char) : Option (Nat × List Char) :=
  let p := s.span isDigitChar
  if p.1.isEmpty then none else some (digitsToNat p.1, p.2)

/-- Consume `,?\d*`: an optional comma followed by any digits. -/
def skipOptCommaDigits (s : List Char) : List Char :=
  match s with
  | ',' :: rest => (rest.span isDigitChar).2
  | _ => (s.span isDigitChar).2

/-- One attempt of `regex_diff_line_number_pattern`
(`@@ -(\d+),(\d+) \+(\d+),(\d+) @@`) at the head of `s`. -/
def match4At (s : List Char) : Option ((Nat × Nat × Nat × Nat) × List Char) :=
  (expectL "@@ -".data s).bind fun s =>
  (expectDigits s).bind fun (o, s) =>
  (expectL [','] s).bind fun s =>
  (expectDigits s).bind fun (oc, s) =>
  (expectL " +".data s).bind fun s =>
  (expectDigits s).bind fun (n, s) =>
  (expectL [','] s).bind fun s =>
  (expectDigits s).bind fun (nc, s) =>
  (expectL " @@".data s).map fun s =>
  ((o, oc, n, nc), s)

/-- One attempt of `regex_diff_one_line_number_pattern`
(`@@ -(\d+),?\d* \+(\d+) @@`) at the head of `s`. -/
def match1At (s : List Char) : Option ((Nat × Nat) × List Char) :=
  (expectL "@@ -".data s).bind fun s =>
  (expectDigits s).bind fun (o, s) =>
  (expectL " +".data (skipOptCommaDigits s)).bind fun s =>
  (expectDigits s).bind fun (n, s) =>
  (expectL " @@".data s).map fun s =>
  ((o, n), s)

/-- One attempt of `regex_diff_line_number_group`
(`(@@ -\d+,?\d* \+\d+,?\d* @@)`); the capture is the whole matched text. -/
def matchGroupAt (s : List Char) : Option (String × List Char) :=
  ((expectL "@@ -".data s).bind fun s1 =>
   (expectDigits s1).bind fun (_, s2) =>
   (expectL " +".data (skipOptCommaDigits s2)).bind fun s4 =>
   (expectDigits s4).bind fun (_, s5) =>
   (expectL " @@".data (skipOptCommaDigits s5)).map fun s7 => s7).map fun rest =>
  (⟨s.take (s.length - rest.length)⟩, rest)

/-- `re.findall` driver: try a match at every position, left to right,
non-overlapping.  `fuel` bounds the scan: every step consumes at least one
character (a successful match of any of the patterns above consumes a
nonempty prefix), so `s.length` steps suffice. -/
def findAllAux {α : Type} (m : List Char → Option (α × List Char)) : Nat → List Char → List α
  | 0, _ => []
  | _ + 1, [] => []
  | fuel + 1, c :: tl =>
    match m (c :: tl) with
    | some (a, rest) => a :: findAllAux m fuel rest
    | none => findAllAux m fuel tl

/-- `re.findall(pattern, s)` for the three hunk-header patterns. -/
def findAll {α : Type} (m : List Char → Option (α × List Char)) (s : List Char) : List α :=
  findAllAux m s.length s

/-- `re.findall(regex_diff_line_number_pattern, diff)`. -/
def findAll4 (s : List Char) : List (Nat × Nat × Nat × Nat) := findAll match4At s

/-- `re.findall(regex_diff_one_line_number_pattern, diff)`. -/
def findAll1 (s : List Char) : List (Nat × Nat) := findAll match1At s

/-- `re.findall(regex_diff_line_number_group, diff)`. -/
def findAllGroup (s : List Char) : List String := findAll matchGroupAt s

/-- One attempt of `regex_diff_hunk_header`
(`@@ -\d+,\d+ \+\d+,\d+ @@ (.+)`) at the head of `s`: the capture `(.+)`
is greedy and the scanned diff line contains no newline, so it is the
whole nonempty remainder of the line. -/
def matchHdrAt (s : List Char) : Option (List Char) :=
  (expectL "@@ -".data s).bind fun s =>
  (expectDigits s).bind fun (_, s) =>
  (expectL [','] s).bind fun s =>
  (expectDigits s).bind fun (_, s) =>
  (expectL " +".data s).bind fun s =>
  (expectDigits s).bind fun (_, s) =>
  (expectL [','] s).bind fun s =>
  (expectDigits s).bind fun (_, s) =>
  (expectL " @@ ".data s).bind fun s =>
  if s.isEmpty then none else some s

/-- First match of `regex_diff_hunk_header` in a diff line: the Python
code only uses `re.findall(...)` for nonemptiness and its first element. -/
def findFirstHdrAux : List Char → Option (List Char)
  | [] => none
  | c :: tl =>
    match matchHdrAt (c :: tl) with
    | some cap => some cap
    | none => findFirstHdrAux tl

/-- Trailing context of the first hunk header found in a diff line. -/
def findFirstHdr (line : String) : Option String := (findFirstHdrAux line.data).map (fun l => ⟨l⟩)

/-- `diff_representation.DiffRepresentation` (the dataclass fields). -/
structure DiffRepresentation where
  diff : String
  file_path : String
  previous_file_path : String

namespace DiffRepresentation

/-- `DiffRepresentation._get_line_number_range_from_match_pair`. -/
def _get_line_number_range_from_match_pair (start_line num_edit_lines : Nat) : LineNumberRange :=
  ⟨start_line, start_line + num_edit_lines⟩

/-- `DiffRepresentation._get_line_numbers_edited_one_line`. -/
def _get_line_numbers_edited_one_line (regex_results : List (Nat × Nat)) : List (LineNumberRange × LineNumberRange) :=
  regex_results.map fun m =>
    (_get_line_number_range_from_match_pair m.1 1, _get_line_number_range_from_match_pair m.2 1)

/-- `DiffRepresentation._get_line_numbers_edited_multiple_lines`. -/
def _get_line_numbers_edited_multiple_lines (regex_results : List (Nat × Nat × Nat × Nat)) : List (LineNumberRange × LineNumberRange) :=
  regex_results.map fun m =>
    (_get_line_number_range_from_match_pair m.1 m.2.1, _get_line_number_range_from_match_pair m.2.2.1 m.2.2.2)

/-- `DiffRepresentation._get_line_numbers_edited_in_both_files`
(`if not self.diff` is the empty-string test for a `str` field). -/
def _get_line_numbers_edited_in_both_files (d : DiffRepresentation) : List (LineNumberRange × LineNumberRange) :=
  if d.diff = "" then []
  else
    let regex_results := findAll4 d.diff.data
    if regex_results.isEmpty then _get_line_numbers_edited_one_line (findAll1 d.diff.data)
    else _get_line_numbers_edited_multiple_lines regex_results

/-- `DiffRepresentation.get_line_numbers_edited_in_old_file`. -/
def get_line_numbers_edited_in_old_file (d : DiffRepresentation) : List LineNumberRange :=
  (d._get_line_numbers_edited_in_both_files).map Prod.fst

/-- `DiffRepresentation.get_line_numbers_edited_in_new_file`. -/
def get_line_numbers_edited_in_new_file (d : DiffRepresentation) : List LineNumberRange :=
  (d._get_line_numbers_edited_in_both_files).map Prod.snd

/-- The inner `for diff_line in self.diff.split("\n")` loop of
`get_extended_diff_line_ranges_by_hunk_header`: the Python mutation of
`line_number_range.start_number` is threaded as a value, and `none`
models an exception escaping from the snippet locator. -/
def processRange (m content : String) : List String → LineNumberRange → Option LineNumberRange
  | [], r => some r
  | diff_line :: rest, r =>
    match findFirstHdr diff_line with
    | none => processRange m content rest r
    | some snip =>
      if pyStartsWith diff_line m then
        match find_line_number_ranges_of_code_snippet_in_content snip content with
        | none => none
        | some [] => processRange m content rest r
        | some (x :: _) => processRange m content rest { r with start_number := x.start_number }
      else processRange m content rest r

/-- The outer `for match, line_number_range in zip(...)` loop of
`get_extended_diff_line_ranges_by_hunk_header`. -/
def extendLoop (diff_lines : List String) (content : String) : List (String × LineNumberRange) → Option (List LineNumberRange)
  | [] => some []
  | (m, r) :: rest =>
    match processRange m content diff_lines r with
    | none => none
    | some r1 =>
      match extendLoop diff_lines content rest with
      | none => none
      | some l => some (r1 :: l)

/-- `DiffRepresentation.get_extended_diff_line_ranges_by_hunk_header`;
`none` models a propagated exception. -/
def get_extended_diff_line_ranges_by_hunk_header (d : DiffRepresentation) (file_content : String) : Option (List LineNumberRange) :=
  if d.diff = "" then some []
  else
    let newly_edited_lines := d.get_line_numbers_edited_in_new_file
    let regex_results := findAllGroup d.diff.data
    extendLoop (pySplitNL d.diff) file_content (regex_results.zip newly_edited_lines)

end DiffRepresentation

/-! ### Spec-side definitions

`specScan` renders the specification's description of the snippet-locator
scan (section 4.2): scan top to bottom; a line is a candidate start if
`startTest` holds; from a candidate start scan forward (inclusive) for the
first line satisfying `endTest`; on success append the 1-based range and
resume after the matched end, otherwise advance one line.  The claims are
settled by comparing the code's scanner against instances of `specScan`. -/

/-- The candidate-start test the code actually applies at each line. -/
def codeStartTest (s : String) (f : Bool) (l : String) : Bool :=
  if f then decide (90 < fuzz_score s (pyStrip l)) else isSubstrOf s l

/-- The end-line test the code actually applies at each line: note the
substring disjunct is present in the fuzzy pass as well. -/
def codeEndTest (e : String) (f : Bool) (l : String) : Bool :=
  (f && decide (90 < fuzz_score e (pyStrip l))) || isSubstrOf e l

/-- First index at or after `idx` (absolute, 0-based) whose line satisfies
`test`; callers pass the suffix `lines.drop idx` together with `idx`. -/
def findIdxFrom (test : String → Bool) : List String → Nat → Option Nat
  | [], _ => none
  | l :: ls, idx => if test l then some idx else findIdxFrom test ls (idx + 1)

/-- Spec-side scanner, one pass, parameterized by the two line tests. -/
def specScanAux (startTest endTest : String → Bool) (lines : List String) : Nat → Nat → List LineNumberRange
  | 0, _ => []
  | fuel + 1, idx =>
    if idx < lines.length then
      if startTest (lines.getD idx "") then
        match findIdxFrom endTest (lines.drop idx) idx with
        | some e => ⟨idx + 1, e + 1⟩ :: specScanAux startTest endTest lines fuel (e + 1)
        | none => specScanAux startTest endTest lines fuel (idx + 1)
      else specScanAux startTest endTest lines fuel (idx + 1)
    else []

/-- Spec-side scanner over a whole file's lines. -/
def specScan (startTest endTest : String → Bool) (lines : List String) : List LineNumberRange :=
  specScanAux startTest endTest lines lines.length 0

/-! ### Helper lemmas -/

/-- A string with nonempty character data is not the empty string. -/
lemma string_ne_empty_of_data {s : String} (h : s.data ≠ []) : s ≠ "" := by
  intro he
  subst he
  exact h rfl

/-- The index loop of `get_line_idx_in_content` finds exactly the first
index satisfying the code's end-line test. -/
lemma getLineIdxAux_eq (e : String) (f : Bool) :
    ∀ (ls : List String) (i : Nat),
      getLineIdxAux e f ls i = (findIdxFrom (codeEndTest e f) ls i).elim (-1) (fun k => (k : Int))
  | [], _ => rfl
  | l :: ls, i => by
    simp only [getLineIdxAux, findIdxFrom, codeEndTest]
    split
    · rfl
    · exact getLineIdxAux_eq e f ls (i + 1)

/-- Shifting the starting index of `findIdxFrom` shifts its result. -/
lemma findIdxFrom_add (t : String → Bool) :
    ∀ (ls : List String) (i : Nat), findIdxFrom t ls i = (findIdxFrom t ls 0).map (fun k => k + i)
  | [], _ => rfl
  | l :: ls, i => by
    simp only [findIdxFrom]
    split
    · simp
    · rw [findIdxFrom_add t ls (i + 1), findIdxFrom_add t ls 1]
      cases findIdxFrom t ls 0 <;> (simp; try omega)

/-- `findIdxFrom` never returns an index below its starting index. -/
lemma findIdxFrom_ge (t : String → Bool) :
    ∀ (ls : List String) (i k : Nat), findIdxFrom t ls i = some k → i ≤ k
  | [], i, k => by simp [findIdxFrom]
  | l :: ls, i, k => by
    simp only [findIdxFrom]
    split
    · intro h
      injection h with h
      omega
    · intro h
      have := findIdxFrom_ge t ls (i + 1) k h
      omega

/-- `get_line_number_range` succeeds exactly when the forward scan for the
end line succeeds, and then returns the 1-based pair of indices. -/
lemma get_line_number_range_eq (idx : Nat) (lines : List String) (e : String) (f : Bool) :
    get_line_number_range idx lines e f =
      (findIdxFrom (codeEndTest e f) (lines.drop idx) idx).map (fun ev => ⟨idx + 1, ev + 1⟩) := by
  unfold get_line_number_range get_line_idx_in_content
  rw [getLineIdxAux_eq, findIdxFrom_add (codeEndTest e f) (lines.drop idx) idx]
  cases h : findIdxFrom (codeEndTest e f) (lines.drop idx) 0 with
  | none =>
    simp only [Option.elim, Option.map_none', Option.map]
    rw [if_pos (by omega)]
  | some k =>
    simp only [Option.elim, Option.map]
    rw [if_neg (by omega)]
    have hk : ((-1 : Int) + ((k + 1 : Nat) : Int) + (idx : Int)).toNat + 1 = k + idx + 1 := by
      push_cast
      omega
    congr 1

/-- The candidate branch of the scanner, written through `codeStartTest`. -/
lemma scan_candidate_eq (s e : String) (lines : List String) (f : Bool) (idx : Nat) :
    (if f then
       if 90 < fuzz_score s (pyStrip (lines.getD idx "")) then
         get_line_number_range idx lines e true
       else none
     else
       if isSubstrOf s (lines.getD idx "") then
         get_line_number_range idx lines e false
       else none : Option LineNumberRange) =
      (if codeStartTest s f (lines.getD idx "") then get_line_number_range idx lines e f else none) := by
  cases f <;> simp [codeStartTest]

/-- The code's scanner coincides with the spec-side scanner instantiated
at the code's actual start and end tests. -/
lemma scanContentAux_eq (s e : String) (lines : List String) (f : Bool) :
    ∀ (fuel idx : Nat),
      scanContentAux s e lines f fuel idx = specScanAux (codeStartTest s f) (codeEndTest e f) lines fuel idx
  | 0, _ => rfl
  | fuel + 1, idx => by
    simp only [scanContentAux, specScanAux]
    by_cases h : idx < lines.length
    · rw [if_pos h, if_pos h, scan_candidate_eq]
      by_cases hst : codeStartTest s f (lines.getD idx "") = true
      · rw [if_pos hst, if_pos hst, get_line_number_range_eq]
        cases hf : findIdxFrom (codeEndTest e f) (lines.drop idx) idx with
        | none => simpa using scanContentAux_eq s e lines f fuel (idx + 1)
        | some ev => simpa using scanContentAux_eq s e lines f fuel (ev + 1)
      · rw [if_neg hst, if_neg hst]
        exact scanContentAux_eq s e lines f fuel (idx + 1)
    · rw [if_neg h, if_neg h]

/-- Unfolding a `drop` at an in-range index. -/
lemma drop_eq_getD_cons : ∀ (l : List String) (i : Nat), i < l.length → l.drop i = l.getD i "" :: l.drop (i + 1)
  | [], i, h => by simp at h
  | a :: l, 0, _ => rfl
  | a :: l, i + 1, h => by
    simp only [List.drop]
    exact drop_eq_getD_cons l i (by simpa using h)

/-- `findIdxFrom` on a suffix returns the first absolute index at or after
the suffix start whose line satisfies the test. -/
lemma findIdxFrom_drop (test : String → Bool) (lines : List String) :
    ∀ (k a b : Nat), b = a + k → b < lines.length →
      (∀ j, a ≤ j → j < b → test (lines.getD j "") = false) →
      test (lines.getD b "") = true →
      findIdxFrom test (lines.drop a) a = some b
  | 0, a, b => by
    intro hb hlen hno hyes
    have hba : b = a := by omega
    subst hba
    rw [drop_eq_getD_cons lines b hlen, findIdxFrom, if_pos hyes]
  | k + 1, a, b => by
    intro hb hlen hno hyes
    have ha : a < lines.length := by omega
    have hfa := hno a le_rfl (by omega)
    rw [drop_eq_getD_cons lines a ha]
    simp only [findIdxFrom]
    rw [if_neg (by simp only [hfa]; simp)]
    exact findIdxFrom_drop test lines k (a + 1) b (by omega) hlen (fun j hj1 hj2 => hno j (by omega) hj2) hyes

/-- The first range the spec-side scanner emits, when the first candidate
start is at `a` and the forward end scan from `a` lands on `b`. -/
lemma specScanAux_head (startTest endTest : String → Bool) (lines : List String) :
    ∀ (fuel idx a b : Nat), idx ≤ a → a < lines.length → lines.length - idx ≤ fuel →
      (∀ j, idx ≤ j → j < a → startTest (lines.getD j "") = false) →
      startTest (lines.getD a "") = true →
      findIdxFrom endTest (lines.drop a) a = some b →
      (specScanAux startTest endTest lines fuel idx).head? = some ⟨a + 1, b + 1⟩
  | 0, idx, a, b => by
    intro h1 h2 h3 _ _ _
    omega
  | fuel + 1, idx, a, b => by
    intro h1 h2 h3 h4 h5 h6
    have hlt : idx < lines.length := lt_of_le_of_lt h1 h2
    simp only [specScanAux]
    rw [if_pos hlt]
    rcases Nat.eq_or_lt_of_le h1 with heq | hlt2
    · subst heq
      rw [if_pos h5, h6]
      rfl
    · have hfa := h4 idx le_rfl hlt2
      rw [if_neg (by simp only [hfa]; simp)]
      exact specScanAux_head startTest endTest lines fuel (idx + 1) a b hlt2 h2 (by omega)
        (fun j hj1 hj2 => h4 j (by omega) hj2) h5 h6

/-- Every range the code scanner appends has `start_number ≤ end_number`. -/
lemma scanContentAux_start_le (s e : String) (lines : List String) (f : Bool) :
    ∀ (fuel idx : Nat) (r : LineNumberRange),
      r ∈ scanContentAux s e lines f fuel idx → r.start_number ≤ r.end_number
  | 0, idx, r => by simp [scanContentAux]
  | fuel + 1, idx, r => by
    simp only [scanContentAux]
    by_cases h : idx < lines.length
    · rw [if_pos h, scan_candidate_eq]
      by_cases hst : codeStartTest s f (lines.getD idx "") = true
      · rw [if_pos hst, get_line_number_range_eq]
        cases hf : findIdxFrom (codeEndTest e f) (lines.drop idx) idx with
        | none =>
          intro hm
          exact scanContentAux_start_le s e lines f fuel (idx + 1) r (by simpa using hm)
        | some ev =>
          intro hm
          simp only [Option.map] at hm
          rcases List.mem_cons.1 hm with hr | hr
          · subst hr
            have := findIdxFrom_ge (codeEndTest e f) (lines.drop idx) idx ev hf
            simpa using Nat.succ_le_succ this
          · exact scanContentAux_start_le s e lines f fuel _ r hr
      · rw [if_neg hst]
        intro hm
        exact scanContentAux_start_le s e lines f fuel (idx + 1) r hm
    · rw [if_neg h]
      simp

/-- `splitlinesAux` only returns the empty list on wholly empty input. -/
lemma splitlinesAux_ne_nil_bounded :
    ∀ (n : Nat) (l acc : List Char), l.length ≤ n → l ≠ [] ∨ acc ≠ [] → splitlinesAux l acc ≠ [] := by
  intro n
  induction n with
  | zero =>
    intro l acc hl h
    have hnil : l = [] := by
      cases l with
      | nil => rfl
      | cons c rest => simp at hl
    subst hnil
    have hacc : acc ≠ [] := by tauto
    rw [splitlinesAux.eq_def]
    dsimp only
    rw [if_neg (by simpa using hacc)]
    simp
  | succ n ih =>
    intro l acc hl h
    rw [splitlinesAux.eq_def]
    split
    · have hacc : acc ≠ [] := by tauto
      rw [if_neg (by simpa using hacc)]
      simp
    · simp
    · simp
    · simp
    · exact ih _ _ (by simp at hl; omega) (Or.inr (by simp))

/-- `splitlinesAux` only returns the empty list on wholly empty input. -/
lemma splitlinesAux_ne_nil (l acc : List Char) (h : l ≠ [] ∨ acc ≠ []) : splitlinesAux l acc ≠ [] :=
  splitlinesAux_ne_nil_bounded l.length l acc le_rfl h

/-- A snippet whose stripped text is nonempty makes it through
`split_and_process_snippet` without the `IndexError`. -/
lemma split_and_process_isSome (snippet : String) (h : pyStrip snippet ≠ "") :
    (split_and_process_snippet snippet).isSome = true := by
  have hdata : (pyStrip snippet).data ≠ [] := by
    intro hd
    apply h
    cases hs : pyStrip snippet
    rw [hs] at hd
    simp at hd
    simp [hd]
  have h2 : (pySplitlines (pyStrip snippet)).isEmpty = false := by
    unfold pySplitlines
    have := splitlinesAux_ne_nil (pyStrip snippet).data [] (Or.inl hdata)
    simpa using this
  unfold split_and_process_snippet
  simp [h2]

/-- A snippet whose stripped text is nonempty makes snippet location
raise no exception. -/
lemma find_isSome (snippet content : String) (h : pyStrip snippet ≠ "") :
    (find_line_number_ranges_of_code_snippet_in_content snippet content).isSome = true := by
  have hsome := split_and_process_isSome snippet h
  unfold find_line_number_ranges_of_code_snippet_in_content
  cases hs : split_and_process_snippet snippet with
  | none =>
    rw [hs] at hsome
    simp at hsome
  | some ls => simp

namespace DiffRepresentation

/-- The per-hunk diff-line loop never changes `end_number`. -/
lemma processRange_end (m content : String) :
    ∀ (dls : List String) (r r1 : LineNumberRange),
      processRange m content dls r = some r1 → r1.end_number = r.end_number
  | [], r, r1 => by
    intro h
    simp only [processRange] at h
    injection h with h
    rw [h]
  | dl :: rest, r, r1 => by
    intro h
    simp only [processRange] at h
    cases hh : findFirstHdr dl with
    | none =>
      rw [hh] at h
      exact processRange_end m content rest r r1 h
    | some snip =>
      rw [hh] at h
      dsimp only at h
      by_cases hs : pyStartsWith dl m = true
      · rw [if_pos hs] at h
        cases hf : find_line_number_ranges_of_code_snippet_in_content snip content with
        | none =>
          rw [hf] at h
          cases h
        | some lst =>
          rw [hf] at h
          cases lst with
          | nil =>
            dsimp only at h
            exact processRange_end m content rest r r1 h
          | cons x xs =>
            dsimp only at h
            simpa using processRange_end m content rest { r with start_number := x.start_number } r1 h
      · rw [if_neg hs] at h
        exact processRange_end m content rest r r1 h

/-- The per-hunk diff-line loop either leaves `start_number` unchanged or
sets it to the head of some successful snippet location for a diff line
that starts with the hunk's header marker. -/
lemma processRange_start (m content : String) :
    ∀ (dls : List String) (r r1 : LineNumberRange),
      processRange m content dls r = some r1 →
      r1.start_number = r.start_number ∨
        ∃ dl snip x rest2, dl ∈ dls ∧ pyStartsWith dl m = true ∧ findFirstHdr dl = some snip ∧
          find_line_number_ranges_of_code_snippet_in_content snip content = some (x :: rest2) ∧
          r1.start_number = x.start_number
  | [], r, r1 => by
    intro h
    simp only [processRange] at h
    injection h with h
    left
    rw [h]
  | dl :: rest, r, r1 => by
    intro h
    simp only [processRange] at h
    cases hh : findFirstHdr dl with
    | none =>
      rw [hh] at h
      rcases processRange_start m content rest r r1 h with h0 | ⟨a, snip, x, rest2, ha, hb, hc, hd, he⟩
      · exact Or.inl h0
      · exact Or.inr ⟨a, snip, x, rest2, List.mem_cons_of_mem dl ha, hb, hc, hd, he⟩
    | some snip =>
      rw [hh] at h
      dsimp only at h
      by_cases hs : pyStartsWith dl m = true
      · rw [if_pos hs] at h
        cases hf : find_line_number_ranges_of_code_snippet_in_content snip content with
        | none =>
          rw [hf] at h
          cases h
        | some lst =>
          rw [hf] at h
          cases lst with
          | nil =>
            dsimp only at h
            rcases processRange_start m content rest r r1 h with h0 | ⟨a, sn, x, rest2, ha, hb, hc, hd, he⟩
            · exact Or.inl h0
            · exact Or.inr ⟨a, sn, x, rest2, List.mem_cons_of_mem dl ha, hb, hc, hd, he⟩
          | cons x xs =>
            dsimp only at h
            rcases processRange_start m content rest _ r1 h with h0 | ⟨a, sn, y, rest2, ha, hb, hc, hd, he⟩
            · exact Or.inr ⟨dl, snip, x, xs, List.mem_cons_self dl rest, hs, hh, hf, by simpa using h0⟩
            · exact Or.inr ⟨a, sn, y, rest2, List.mem_cons_of_mem dl ha, hb, hc, hd, he⟩
      · rw [if_neg hs] at h
        rcases processRange_start m content rest r r1 h with h0 | ⟨a, sn, x, rest2, ha, hb, hc, hd, he⟩
        · exact Or.inl h0
        · exact Or.inr ⟨a, sn, x, rest2, List.mem_cons_of_mem dl ha, hb, hc, hd, he⟩

/-- The per-hunk diff-line loop raises no exception when every hunk header
found in the diff carries a trailing context that is not all whitespace. -/
lemma processRange_isSome (m content : String) :
    ∀ (dls : List String) (r : LineNumberRange),
      (∀ dl ∈ dls, (findFirstHdr dl).map pyStrip ≠ some "") →
      (processRange m content dls r).isSome = true
  | [], r => by
    intro _
    simp [processRange]
  | dl :: rest, r => by
    intro h
    have htail : ∀ x ∈ rest, (findFirstHdr x).map pyStrip ≠ some "" :=
      fun x hx => h x (List.mem_cons_of_mem dl hx)
    simp only [processRange]
    cases hh : findFirstHdr dl with
    | none => exact processRange_isSome m content rest r htail
    | some snip =>
      have hsnip : pyStrip snip ≠ "" := by
        have hd := h dl (List.mem_cons_self dl rest)
        rw [hh] at hd
        simpa using hd
      dsimp only
      by_cases hs : pyStartsWith dl m = true
      · rw [if_pos hs]
        cases hf : find_line_number_ranges_of_code_snippet_in_content snip content with
        | none =>
          have := find_isSome snip content hsnip
          rw [hf] at this
          simp at this
        | some lst =>
          cases lst with
          | nil =>
            dsimp only
            exact processRange_isSome m content rest r htail
          | cons x xs =>
            dsimp only
            exact processRange_isSome m content rest { r with start_number := x.start_number } htail
      · rw [if_neg hs]
        exact processRange_isSome m content rest r htail

/-- Characterization of a successful run of the outer expansion loop. -/
lemma extendLoop_some (dls : List String) (content : String) :
    ∀ (pairs : List (String × LineNumberRange)) (ext : List LineNumberRange),
      extendLoop dls content pairs = some ext →
      ext.length = pairs.length ∧
        ∀ i, i < pairs.length →
          processRange (pairs.getD i default).1 content dls (pairs.getD i default).2 = some (ext.getD i default)
  | [], ext => by
    intro h
    simp only [extendLoop] at h
    injection h with h
    subst h
    simp
  | (m, r) :: rest, ext => by
    intro h
    simp only [extendLoop] at h
    cases hp : processRange m content dls r with
    | none =>
      rw [hp] at h
      cases h
    | some r1 =>
      rw [hp] at h
      cases he : extendLoop dls content rest with
      | none =>
        rw [he] at h
        cases h
      | some l =>
        rw [he] at h
        injection h with h
        subst h
        obtain ⟨hlen, hall⟩ := extendLoop_some dls content rest l he
        refine ⟨by simpa using hlen, ?_⟩
        intro i hi
        cases i with
        | zero => simpa using hp
        | succ j => simpa using hall j (by simpa using hi)

/-- The outer expansion loop raises no exception when each per-hunk run
raises none. -/
lemma extendLoop_isSome (dls : List String) (content : String) :
    ∀ (pairs : List (String × LineNumberRange)),
      (∀ p ∈ pairs, (processRange p.1 content dls p.2).isSome = true) →
      (extendLoop dls content pairs).isSome = true
  | [] => by
    intro _
    simp [extendLoop]
  | (m, r) :: rest => by
    intro h
    simp only [extendLoop]
    cases hp : processRange m content dls r with
    | none =>
      have := h (m, r) (List.mem_cons_self _ rest)
      rw [hp] at this
      simp at this
    | some r1 =>
      have := extendLoop_isSome dls content rest (fun p hp2 => h p (List.mem_cons_of_mem _ hp2))
      cases he : extendLoop dls content rest with
      | none =>
        rw [he] at this
        simp at this
      | some l => simp

end DiffRepresentation

/-- Unfolded form of `get_line_number_ranges_in_content`. -/
lemma get_line_number_ranges_in_content_eq (s e c : String) :
    get_line_number_ranges_in_content s e c =
      (if (scanContent s e (pySplitNL c) false).isEmpty then scanContent s e (pySplitNL c) true
       else scanContent s e (pySplitNL c) false) := rfl

/-- Unfolded form of `_get_line_numbers_edited_in_both_files`. -/
lemma both_files_eq (d : DiffRepresentation) :
    d._get_line_numbers_edited_in_both_files =
      (if d.diff = "" then []
       else if (findAll4 d.diff.data).isEmpty then
         DiffRepresentation._get_line_numbers_edited_one_line (findAll1 d.diff.data)
       else DiffRepresentation._get_line_numbers_edited_multiple_lines (findAll4 d.diff.data)) := rfl

/-- Unfolded form of `get_extended_diff_line_ranges_by_hunk_header`. -/
lemma get_extended_eq (d : DiffRepresentation) (content : String) :
    d.get_extended_diff_line_ranges_by_hunk_header content =
      (if d.diff = "" then some []
       else DiffRepresentation.extendLoop (pySplitNL d.diff) content
         ((findAllGroup d.diff.data).zip d.get_line_numbers_edited_in_new_file)) := rfl

/-! ### Claims -/

/-- C1: for every diff text containing one or more four-number hunk
headers `@@ -O,oC +N,nC @@`, parsing yields, for each such header in
order, old range `[O, O + oC]` and new range `[N, N + nC]`
(`end_number = start + count`, not `start + count - 1`). -/
theorem c1_four_number_hunk_parsing (d : DiffRepresentation)
    (h : findAll4 d.diff.data ≠ []) :
    d.get_line_numbers_edited_in_old_file =
      (findAll4 d.diff.data).map (fun m => ⟨m.1, m.1 + m.2.1⟩) ∧
    d.get_line_numbers_edited_in_new_file =
      (findAll4 d.diff.data).map (fun m => ⟨m.2.2.1, m.2.2.1 + m.2.2.2⟩) := by
  have hne : d.diff ≠ "" := by
    intro he
    apply h
    rw [he]
    rfl
  have hie : (findAll4 d.diff.data).isEmpty = false := by
    simpa [List.isEmpty_iff] using h
  have hboth : d._get_line_numbers_edited_in_both_files =
      (findAll4 d.diff.data).map
        (fun m => (⟨m.1, m.1 + m.2.1⟩, ⟨m.2.2.1, m.2.2.1 + m.2.2.2⟩)) := by
    rw [both_files_eq, if_neg hne, hie]
    simp [DiffRepresentation._get_line_numbers_edited_multiple_lines,
      DiffRepresentation._get_line_number_range_from_match_pair]
  constructor
  · rw [DiffRepresentation.get_line_numbers_edited_in_old_file, hboth, List.map_map]
    rfl
  · rw [DiffRepresentation.get_line_numbers_edited_in_new_file, hboth, List.map_map]
    rfl

/-- Witness for C1 at a concrete two-hunk diff. -/
theorem c1_four_number_hunk_parsing_witness :
    (DiffRepresentation.mk "@@ -3,5 +7,2 @@ x\nbody\n@@ -20,4 +21,6 @@ y" "p" "p").get_line_numbers_edited_in_old_file = [⟨3, 8⟩, ⟨20, 24⟩] ∧
    (DiffRepresentation.mk "@@ -3,5 +7,2 @@ x\nbody\n@@ -20,4 +21,6 @@ y" "p" "p").get_line_numbers_edited_in_new_file = [⟨7, 9⟩, ⟨21, 27⟩] := by
  have h := c1_four_number_hunk_parsing
    (DiffRepresentation.mk "@@ -3,5 +7,2 @@ x\nbody\n@@ -20,4 +21,6 @@ y" "p" "p") (by decide)
  exact ⟨h.1.trans (by decide), h.2.trans (by decide)⟩

/-- C5: when no four-number hunk-header pattern matches anywhere in the
diff, each single-number header `@@ -O +N @@` yields old range
`[O, O + 1]` and new range `[N, N + 1]` (count defaults to 1); the
single-number fallback is consulted only under that hypothesis. -/
theorem c5_single_number_fallback (d : DiffRepresentation)
    (h : findAll4 d.diff.data = []) :
    d.get_line_numbers_edited_in_old_file =
      (findAll1 d.diff.data).map (fun m => ⟨m.1, m.1 + 1⟩) ∧
    d.get_line_numbers_edited_in_new_file =
      (findAll1 d.diff.data).map (fun m => ⟨m.2, m.2 + 1⟩) := by
  have hboth : d._get_line_numbers_edited_in_both_files =
      (findAll1 d.diff.data).map (fun m => (⟨m.1, m.1 + 1⟩, ⟨m.2, m.2 + 1⟩)) := by
    by_cases hne : d.diff = ""
    · rw [both_files_eq, if_pos hne, hne]
      rfl
    · have hie : (findAll4 d.diff.data).isEmpty = true := by simp [h]
      rw [both_files_eq, if_neg hne, hie]
      simp [DiffRepresentation._get_line_numbers_edited_one_line,
        DiffRepresentation._get_line_number_range_from_match_pair]
  constructor
  · rw [DiffRepresentation.get_line_numbers_edited_in_old_file, hboth, List.map_map]
    rfl
  · rw [DiffRepresentation.get_line_numbers_edited_in_new_file, hboth, List.map_map]
    rfl

/-- Witness for C5 at a concrete single-number diff. -/
theorem c5_single_number_fallback_witness :
    (DiffRepresentation.mk "@@ -4 +9 @@" "p" "p").get_line_numbers_edited_in_old_file = [⟨4, 5⟩] ∧
    (DiffRepresentation.mk "@@ -4 +9 @@" "p" "p").get_line_numbers_edited_in_new_file = [⟨9, 10⟩] := by
  have h := c5_single_number_fallback (DiffRepresentation.mk "@@ -4 +9 @@" "p" "p") (by decide)
  exact ⟨h.1.trans (by decide), h.2.trans (by decide)⟩

/-- C8: for every diff, the old-range and new-range lists have equal
length, and zipping them recovers exactly the per-hunk pair list in hunk
order (the i-th old and i-th new range come from the same hunk). -/
theorem c8_parallel_range_lists (d : DiffRepresentation) :
    d.get_line_numbers_edited_in_old_file.length = d.get_line_numbers_edited_in_new_file.length ∧
    d.get_line_numbers_edited_in_old_file.zip d.get_line_numbers_edited_in_new_file =
      d._get_line_numbers_edited_in_both_files := by
  constructor
  · simp [DiffRepresentation.get_line_numbers_edited_in_old_file,
      DiffRepresentation.get_line_numbers_edited_in_new_file]
  · rw [DiffRepresentation.get_line_numbers_edited_in_old_file,
      DiffRepresentation.get_line_numbers_edited_in_new_file, List.zip_map']
    simp

/-- C9: the empty diff yields empty old and new range lists, and empty
expansion output for any file content. -/
theorem c9_empty_diff (fp pfp content : String) :
    (DiffRepresentation.mk "" fp pfp).get_line_numbers_edited_in_old_file = [] ∧
    (DiffRepresentation.mk "" fp pfp).get_line_numbers_edited_in_new_file = [] ∧
    (DiffRepresentation.mk "" fp pfp).get_extended_diff_line_ranges_by_hunk_header content = some [] :=
  ⟨rfl, rfl, rfl⟩

/-- C3: when the (trimmed) first snippet line first occurs as a substring
of a file line at 0-based index `i` (1-based line `a = i + 1`), and the
(trimmed) last snippet line first occurs at or after `i` at 0-based index
`j` (1-based line `b = j + 1`, so `a ≤ b`), the exact pass returns
`[a, b]` as its first range. -/
theorem c3_exact_pass_first_range (content first last : String) (i j : Nat)
    (hj : j < (pySplitNL content).length)
    (hij : i ≤ j)
    (hfirst0 : ∀ k, k < i → isSubstrOf first ((pySplitNL content).getD k "") = false)
    (hfirst : isSubstrOf first ((pySplitNL content).getD i "") = true)
    (hlast0 : ∀ k, k < j → i ≤ k → isSubstrOf last ((pySplitNL content).getD k "") = false)
    (hlast : isSubstrOf last ((pySplitNL content).getD j "") = true) :
    (scanContent first last (pySplitNL content) false).head? = some ⟨i + 1, j + 1⟩ := by
  have hi : i < (pySplitNL content).length := Nat.lt_of_le_of_lt hij hj
  have hst : ∀ l, codeStartTest first false l = isSubstrOf first l := fun l => by
    simp [codeStartTest]
  have het : ∀ l, codeEndTest last false l = isSubstrOf last l := fun l => by
    simp [codeEndTest]
  have hfind : findIdxFrom (codeEndTest last false) ((pySplitNL content).drop i) i = some j := by
    apply findIdxFrom_drop (codeEndTest last false) (pySplitNL content) (j - i) i j (by omega) hj
    · intro k hk1 hk2
      rw [het]
      exact hlast0 k hk2 hk1
    · rw [het]
      exact hlast
  rw [scanContent, scanContentAux_eq]
  apply specScanAux_head (codeStartTest first false) (codeEndTest last false) (pySplitNL content)
    (pySplitNL content).length 0 i j (Nat.zero_le i) hi (by omega)
  · intro k _ hk
    rw [hst]
    exact hfirst0 k hk
  · rw [hst]
    exact hfirst
  · exact hfind

/-- Witness for C3: first line "FOO" first matches at line 2, last line
"BAR" first matches at or after it at line 4. -/
theorem c3_exact_pass_first_range_witness :
    (scanContent "FOO" "BAR" (pySplitNL "aa\nFOO blah\nmid\nBAR tail\nrest") false).head? =
      some ⟨2, 4⟩ :=
  c3_exact_pass_first_range "aa\nFOO blah\nmid\nBAR tail\nrest" "FOO" "BAR" 1 3
    (by decide) (by decide) (by decide) (by decide) (by decide) (by decide)

/-- C4 (amended): the fuzzy pass runs only when the exact pass produced
zero ranges; it is the same scanning algorithm with the candidate-start
substring test replaced by `fuzz.ratio > 90` on trimmed lines, but the
end-line test is `fuzz.ratio > 90` OR the substring test — the substring
disjunct is not replaced there. -/
theorem c4_amended_fuzzy_pass (s e content : String) :
    get_line_number_ranges_in_content s e content =
      (if (specScan (fun l => isSubstrOf s l) (fun l => isSubstrOf e l) (pySplitNL content)).isEmpty then
        specScan (fun l => decide (90 < fuzz_score s (pyStrip l)))
          (fun l => decide (90 < fuzz_score e (pyStrip l)) || isSubstrOf e l) (pySplitNL content)
      else specScan (fun l => isSubstrOf s l) (fun l => isSubstrOf e l) (pySplitNL content)) := by
  have h1 : codeStartTest s false = fun l => isSubstrOf s l := funext fun l => by
    simp [codeStartTest]
  have h2 : codeEndTest e false = fun l => isSubstrOf e l := funext fun l => by
    simp [codeEndTest]
  have h3 : codeStartTest s true = fun l => decide (90 < fuzz_score s (pyStrip l)) := funext fun l => by
    simp [codeStartTest]
  have h4 : codeEndTest e true = fun l => decide (90 < fuzz_score e (pyStrip l)) || isSubstrOf e l :=
    funext fun l => by simp [codeEndTest]
  rw [get_line_number_ranges_in_content_eq]
  unfold scanContent specScan
  rw [scanContentAux_eq, scanContentAux_eq, h1, h2, h3, h4]

/-- C4 counterexample: the exact pass finds nothing, so the fuzzy pass
runs; the code returns `[1, 2]` because the end line at line 2 matches by
substring despite a similarity of only 10, while the claimed algorithm
(end test replaced by similarity alone) would return `[1, 3]`. -/
theorem c4_counterexample :
    scanContent "abcdefghijX" "x" (pySplitNL "abcdefghijY\nxqqqqqqqqqqqqqqqqqqq\nx") false = [] ∧
    get_line_number_ranges_in_content "abcdefghijX" "x" "abcdefghijY\nxqqqqqqqqqqqqqqqqqqq\nx" =
      [⟨1, 2⟩] ∧
    specScan (fun l => decide (90 < fuzz_score "abcdefghijX" (pyStrip l)))
      (fun l => decide (90 < fuzz_score "x" (pyStrip l)))
      (pySplitNL "abcdefghijY\nxqqqqqqqqqqqqqqqqqqq\nx") = [⟨1, 3⟩] ∧
    ([⟨1, 2⟩] : List LineNumberRange) ≠ [⟨1, 3⟩] :=
  ⟨by decide, by decide, by decide, by decide⟩

/-- C10: every range produced by hunk-header parsing and every range
returned by the snippet locator satisfies `start_number ≤ end_number`. -/
theorem c10_range_invariant :
    (∀ (d : DiffRepresentation) (p : LineNumberRange × LineNumberRange),
        p ∈ d._get_line_numbers_edited_in_both_files →
        p.1.start_number ≤ p.1.end_number ∧ p.2.start_number ≤ p.2.end_number) ∧
    (∀ (s e content : String) (r : LineNumberRange),
        r ∈ get_line_number_ranges_in_content s e content →
        r.start_number ≤ r.end_number) := by
  constructor
  · intro d p hp
    rw [both_files_eq] at hp
    by_cases hne : d.diff = ""
    · rw [if_pos hne] at hp
      simp at hp
    · rw [if_neg hne] at hp
      by_cases hie : (findAll4 d.diff.data).isEmpty
      · rw [if_pos hie] at hp
        simp only [DiffRepresentation._get_line_numbers_edited_one_line,
          DiffRepresentation._get_line_number_range_from_match_pair, List.mem_map] at hp
        obtain ⟨m, _, rfl⟩ := hp
        exact ⟨Nat.le_add_right _ _, Nat.le_add_right _ _⟩
      · rw [if_neg hie] at hp
        simp only [DiffRepresentation._get_line_numbers_edited_multiple_lines,
          DiffRepresentation._get_line_number_range_from_match_pair, List.mem_map] at hp
        obtain ⟨m, _, rfl⟩ := hp
        exact ⟨Nat.le_add_right _ _, Nat.le_add_right _ _⟩
  · intro s e content r hr
    rw [get_line_number_ranges_in_content_eq] at hr
    by_cases hie : (scanContent s e (pySplitNL content) false).isEmpty
    · rw [if_pos hie] at hr
      exact scanContentAux_start_le s e (pySplitNL content) true _ 0 r hr
    · rw [if_neg hie] at hr
      exact scanContentAux_start_le s e (pySplitNL content) false _ 0 r hr

/-- Witness for C10 at a concrete parsed hunk pair and a concrete located
snippet range. -/
theorem c10_range_invariant_witness :
    ((⟨1, 3⟩ : LineNumberRange).start_number ≤ (⟨1, 3⟩ : LineNumberRange).end_number ∧
      (⟨3, 7⟩ : LineNumberRange).start_number ≤ (⟨3, 7⟩ : LineNumberRange).end_number) ∧
    (⟨1, 1⟩ : LineNumberRange).start_number ≤ (⟨1, 1⟩ : LineNumberRange).end_number :=
  ⟨c10_range_invariant.1 (DiffRepresentation.mk "@@ -1,2 +3,4 @@" "p" "p") (⟨1, 3⟩, ⟨3, 7⟩)
      (by decide),
    c10_range_invariant.2 "a" "a" "a" ⟨1, 1⟩ (by decide)⟩

/-- C2 counterexample: against a file whose enclosing-block header occurs
below the hunk, expansion replaces the new-range start 1 with the located
start 5 — it moves the start later, not earlier or unchanged. -/
theorem c2_counterexample :
    (DiffRepresentation.mk "@@ -1,2 +1,2 @@ foo" "p" "p").get_extended_diff_line_ranges_by_hunk_header
        "a\nb\nc\nd\nfoo" = some [⟨5, 3⟩] ∧
    (DiffRepresentation.mk "@@ -1,2 +1,2 @@ foo" "p" "p").get_line_numbers_edited_in_new_file =
      [⟨1, 3⟩] ∧
    ¬(5 ≤ 1) :=
  ⟨by decide, by decide, by decide⟩

/-- C2 (amended): whenever expansion returns, it never changes any
hunk's new-range `end_number`; the `start_number` is either left
unchanged, or replaced by the start of the first range located for the
trailing context of a diff line starting with that hunk's header marker —
the replacement need not be earlier than the original start. -/
theorem c2_amended_expansion (d : DiffRepresentation) (content : String)
    (ext : List LineNumberRange)
    (h : d.get_extended_diff_line_ranges_by_hunk_header content = some ext) :
    ∀ i, i < ext.length →
      (ext.getD i default).end_number =
        (d.get_line_numbers_edited_in_new_file.getD i default).end_number ∧
      ((ext.getD i default).start_number =
          (d.get_line_numbers_edited_in_new_file.getD i default).start_number ∨
        ∃ dl snip x rest2, dl ∈ pySplitNL d.diff ∧
          pyStartsWith dl ((findAllGroup d.diff.data).getD i "") = true ∧
          findFirstHdr dl = some snip ∧
          find_line_number_ranges_of_code_snippet_in_content snip content = some (x :: rest2) ∧
          (ext.getD i default).start_number = x.start_number) := by
  intro i hi
  rw [get_extended_eq] at h
  by_cases hne : d.diff = ""
  · rw [if_pos hne] at h
    injection h with h
    subst h
    simp at hi
  · rw [if_neg hne] at h
    obtain ⟨hlen, hall⟩ := DiffRepresentation.extendLoop_some (pySplitNL d.diff) content
      ((findAllGroup d.diff.data).zip d.get_line_numbers_edited_in_new_file) ext h
    rw [hlen] at hi
    have hi1 : i < (findAllGroup d.diff.data).length := by
      rw [List.length_zip] at hi
      omega
    have hi2 : i < d.get_line_numbers_edited_in_new_file.length := by
      rw [List.length_zip] at hi
      omega
    have hzip : (((findAllGroup d.diff.data).zip d.get_line_numbers_edited_in_new_file).getD i default) =
        ((findAllGroup d.diff.data).getD i "", d.get_line_numbers_edited_in_new_file.getD i default) := by
      rw [List.getD_eq_getElem _ _ hi, List.getD_eq_getElem _ _ hi1, List.getD_eq_getElem _ _ hi2]
      exact List.getElem_zip
    have hproc := hall i hi
    rw [hzip] at hproc
    constructor
    · exact DiffRepresentation.processRange_end _ content _ _ _ hproc
    · exact DiffRepresentation.processRange_start _ content _ _ _ hproc

/-- Witness for C2 (amended) at the concrete counterexample input: the
end stays 3, and the start 5 is the start of the located range. -/
theorem c2_amended_expansion_witness :
    (([⟨5, 3⟩] : List LineNumberRange).getD 0 default).end_number =
      (((DiffRepresentation.mk "@@ -1,2 +1,2 @@ foo" "p" "p").get_line_numbers_edited_in_new_file).getD 0 default).end_number ∧
    ((([⟨5, 3⟩] : List LineNumberRange).getD 0 default).start_number =
        (((DiffRepresentation.mk "@@ -1,2 +1,2 @@ foo" "p" "p").get_line_numbers_edited_in_new_file).getD 0 default).start_number ∨
      ∃ dl snip x rest2, dl ∈ pySplitNL (DiffRepresentation.mk "@@ -1,2 +1,2 @@ foo" "p" "p").diff ∧
        pyStartsWith dl ((findAllGroup (DiffRepresentation.mk "@@ -1,2 +1,2 @@ foo" "p" "p").diff.data).getD 0 "") = true ∧
        findFirstHdr dl = some snip ∧
        find_line_number_ranges_of_code_snippet_in_content snip "a\nb\nc\nd\nfoo" = some (x :: rest2) ∧
        (([⟨5, 3⟩] : List LineNumberRange).getD 0 default).start_number = x.start_number) :=
  c2_amended_expansion (DiffRepresentation.mk "@@ -1,2 +1,2 @@ foo" "p" "p") "a\nb\nc\nd\nfoo"
    [⟨5, 3⟩] (by decide) 0 (by decide)

/-- C6 counterexample: snippet location on an empty snippet raises
(`IndexError`, modelled as `none`), and a diff whose hunk header carries a
whitespace-only trailing context makes expansion raise as well, instead of
returning an empty result or the unchanged range. -/
theorem c6_counterexample :
    find_line_number_ranges_of_code_snippet_in_content "" "x" = none ∧
    (DiffRepresentation.mk "@@ -1,2 +3,4 @@  " "p" "p").get_extended_diff_line_ranges_by_hunk_header
        "x" = none :=
  ⟨by decide, by decide⟩

/-- C6 (amended): parsing is total; snippet location never raises when the
stripped snippet is nonempty, and expansion never raises when every hunk
header found in the diff carries a trailing context that does not strip to
the empty string; failures then degrade to empty results or unchanged
ranges. -/
theorem c6_amended_no_raise :
    (∀ snippet content : String, pyStrip snippet ≠ "" →
        (find_line_number_ranges_of_code_snippet_in_content snippet content).isSome = true) ∧
    (∀ (d : DiffRepresentation) (content : String),
        (∀ dl ∈ pySplitNL d.diff, (findFirstHdr dl).map pyStrip ≠ some "") →
        (d.get_extended_diff_line_ranges_by_hunk_header content).isSome = true) := by
  constructor
  · exact fun snippet content h => find_isSome snippet content h
  · intro d content h
    rw [get_extended_eq]
    by_cases hne : d.diff = ""
    · rw [if_pos hne]
      rfl
    · rw [if_neg hne]
      apply DiffRepresentation.extendLoop_isSome
      intro p _
      exact DiffRepresentation.processRange_isSome p.1 content (pySplitNL d.diff) p.2 h

/-- Witness for C6 (amended) at a nonempty snippet and a diff with a
non-whitespace trailing context. -/
theorem c6_amended_no_raise_witness :
    (find_line_number_ranges_of_code_snippet_in_content "ab" "zz").isSome = true ∧
    ((DiffRepresentation.mk "@@ -1,2 +3,4 @@ x" "p" "p").get_extended_diff_line_ranges_by_hunk_header
        "y").isSome = true :=
  ⟨c6_amended_no_raise.1 "ab" "zz" (by decide),
    c6_amended_no_raise.2 (DiffRepresentation.mk "@@ -1,2 +3,4 @@ x" "p" "p") "y" (by decide)⟩

/-- C7 counterexample: the ellipsis substitution is anchored at the end of
the line, so the leading ellipsis of `"...bar)"` is not stripped and the
snippet does not become `["foo(", "bar)"]`. -/
theorem c7_counterexample :
    split_and_process_snippet "foo(\n...bar)" = some ["foo(", "...bar)"] ∧
    some ["foo(", "...bar)"] ≠ some ["foo(", "bar)"] :=
  ⟨by decide, by decide⟩

/-- C7 (amended): preprocessing strips only a trailing ellipsis marker
(optionally wrapped in `]`/`}` or preceded by `[`/`{`) from the first and
last snippet lines; a leading ellipsis is left in place, so
`["foo(", "...bar)"]` is unchanged while `["foo(", "bar)..."]`,
`["foo(", "bar)[...]"]` and the brace-wrapped form become
`["foo(", "bar)"]`, and a trailing ellipsis on the first line
(`"foo(..."`) is stripped. -/
theorem c7_amended_trailing_ellipsis :
    split_and_process_snippet "foo(\n...bar)" = some ["foo(", "...bar)"] ∧
    split_and_process_snippet "foo(\nbar)..." = some ["foo(", "bar)"] ∧
    split_and_process_snippet "foo(\nbar)[...]" = some ["foo(", "bar)"] ∧
    split_and_process_snippet ⟨"foo(\nbar)".data ++ (openBrace :: dots ++ [closeBrace])⟩ =
      some ["foo(", "bar)"] ∧
    split_and_process_snippet "foo(...\nbar)" = some ["foo(", "bar)"] :=
  ⟨by decide, by decide, by decide, by decide, by decide⟩

end Korbit
